import Mathlib

/-!
Verification of the food-rescue fair-allocation core (`src/algos.py`,
adjacency construction from `src/main.py`) against its natural-language
specification.  Machine reals are modelled as `ℚ`; Python dicts keyed by
index tuples are modelled as functions; the solver's side of `pulp` is
modelled by quantifying over variable assignments that satisfy the
constraints the code adds to the model.
-/

namespace FoodRescue

/-- `Item` from `donor.py`: a weight in pounds and a dict mapping
food-type label to pounds of that type (`foodTypeQuantities`). -/
structure Item where
  weight : ℚ
  foodTypeQuantities : List (String × ℚ)
deriving DecidableEq

/-- `Donor` from `donor.py`: name, FBWM partnership flag, list of items. -/
structure Donor where
  name : String
  fbwmPartner : Bool
  items : List Item
deriving DecidableEq

/-- `Agency`: `servedPerWk` is `Option ℚ` (absent/`None` modelled as `none`;
Python's truthiness check `agency.servedPerWk and agency.servedPerWk > 0`
collapses to "present and strictly positive").  `fbwmPartner` is the string
tag read by `main.py` (`"NFB"` means not a Food Bank partner). -/
structure Agency where
  name : String
  servedPerWk : Option ℚ
  fbwmPartner : String
deriving DecidableEq

/-- `Driver` from `driver.py`; the allocator uses only the count of drivers. -/
structure Driver where
  name : String
deriving DecidableEq

/-- The seven food types fixed at the top of `algos.py`. -/
def FOOD_TYPES : List String :=
  ["dairy", "meat", "produce", "grain", "processed", "non-perishables", "hygiene"]

/-- The fixed internal time-step list of `egalitarianILP` (`algos.py` line 46). -/
def timeSteps : List ℕ := [0, 1, 2, 3, 4, 6, 7, 8, 9]

/-- Insert a value into an ascending list, keeping it ascending. -/
def insertSorted (x : ℚ) : List ℚ → List ℚ
  | [] => [x]
  | y :: ys => if x ≤ y then x :: y :: ys else y :: insertSorted x ys

/-- Ascending insertion sort (the ascending rearrangement of a list of
rationals is unique, so this agrees with the sort inside Python's
`statistics.median`). -/
def sortAsc (l : List ℚ) : List ℚ := l.foldr insertSorted []

/-- Python `statistics.median`: sort ascending; odd length takes the middle
element, even length averages the two middle elements. -/
def median (l : List ℚ) : ℚ :=
  let sorted := sortAsc l
  if l.length % 2 = 1 then sorted.getD (l.length / 2) 0
  else (sorted.getD (l.length / 2 - 1) 0 + sorted.getD (l.length / 2) 0) / 2

/-- The validity test of `calculateAgencyWeights`: `servedPerWk` present and
strictly positive; returns the value when valid. -/
def validServed (a : Agency) : Option ℚ :=
  match a.servedPerWk with
  | some w => if 0 < w then some w else none
  | none => none

/-- The `validWeights` list collected by `calculateAgencyWeights`. -/
def validWeightsOf (agencies : List Agency) : List ℚ :=
  agencies.filterMap validServed

/-- The `medianWeight` fallback of `calculateAgencyWeights`: median of the
valid weights, or the constant 100 when no agency has a valid value. -/
def batchMedianWeight (agencies : List Agency) : ℚ :=
  if (validWeightsOf agencies).isEmpty then 100 else median (validWeightsOf agencies)

/-- `calculateAgencyWeights` (`algos.py` lines 231-286), including the
empty-input early return `[100.0]` and the (dead) final re-fill branch. -/
def calculateAgencyWeights (agencies : List Agency) : List ℚ :=
  if agencies.isEmpty then [100]
  else
    let weights := agencies.map fun a => (validServed a).getD (batchMedianWeight agencies)
    if weights.isEmpty then List.replicate agencies.length (batchMedianWeight agencies)
    else weights

/-- Item lookup `donors[donorIdx].items[itemIdx]`. -/
def donorItem (donors : List Donor) (d i : ℕ) : Option Item :=
  (donors.get? d).bind fun don => don.items.get? i

/-- `item.weight` at a (donor, item) index pair; 0 when out of range. -/
def itemWeight (donors : List Donor) (d i : ℕ) : ℚ :=
  ((donorItem donors d i).map Item.weight).getD 0

/-- `len(donor.items)` at a donor index; 0 when out of range. -/
def numItems (donors : List Donor) (d : ℕ) : ℕ :=
  ((donors.get? d).map fun don => don.items.length).getD 0

/-- `createFoodTypeMatrix` entry: `item.foodTypeQuantities.get(foodType, 0.0)`
(`algos.py` lines 290-300); 0 when the index pair is out of range. -/
def qgfEntry (donors : List Donor) (d i : ℕ) (f : String) : ℚ :=
  ((donorItem donors d i).map fun it => ((it.foodTypeQuantities.lookup f).getD 0)).getD 0

/-- `createDriverFeasibilityMatrix` (`algos.py` lines 304-323): the tensor is
zero-initialised with shape (agencies, donors, drivers) and an in-range entry
is set exactly when the adjacency entry `adjMatrix[donor][agency]` equals 1. -/
def createDriverFeasibilityMatrix (donors : List Donor) (agencies : List Agency)
    (drivers : List Driver) (adjMatrix : ℕ → ℕ → ℚ) (a d k : ℕ) : Bool :=
  decide (a < agencies.length) && decide (d < donors.length) &&
    decide (k < drivers.length) && decide (adjMatrix d a = 1)

/-- The adjacency-matrix construction of `main.py` (lines 38-50): an FBWM
partner donor paired with an `"NFB"` agency never gets an edge; otherwise an
edge is placed according to the random draw, modelled by the oracle `coin`. -/
def buildAdjMatrix (donors : List Donor) (agencies : List Agency)
    (coin : ℕ → ℕ → Bool) (i j : ℕ) : ℚ :=
  if i < donors.length ∧ j < agencies.length then
    if ((donors.get? i).map Donor.fbwmPartner).getD false = true ∧
        ((agencies.get? j).map Agency.fbwmPartner).getD "" = "NFB" then 0
    else if coin i j then 1 else 0
  else 0

/-- Sum of `f` over indices `0, ..., n-1`. -/
def sumOver (n : ℕ) (f : ℕ → ℚ) : ℚ := ((List.range n).map f).sum

/-- Sum of `g` over the seven food types. -/
def sumOverFoods (g : String → ℚ) : ℚ := (FOOD_TYPES.map g).sum

/-- Total pounds of all food-type quantities of one item, as summed by the
code's constraint 1 (`algos.py` lines 93-99). -/
def qgfSum (donors : List Donor) (d i : ℕ) : ℚ :=
  sumOverFoods fun f => qgfEntry donors d i f

/-- LHS of the code's constraint 1: `totalFoodReceived` of an agency, built
from the `qgf` matrix (`algos.py` lines 94-99). -/
def codeTotalFoodReceived (donors : List Donor) (xval : ℕ → ℕ → ℕ → ℚ) (a : ℕ) : ℚ :=
  sumOver donors.length fun d =>
    sumOver (numItems donors d) fun i =>
      sumOverFoods fun f => qgfEntry donors d i f * xval a d i

/-- The quantity the spec's constraint-1 sentence speaks about: the sum of the
assigned items' weights (`item.weight`) over the assignment indicators. -/
def itemWeightReceived (donors : List Donor) (xval : ℕ → ℕ → ℕ → ℚ) (a : ℕ) : ℚ :=
  sumOver donors.length fun d =>
    sumOver (numItems donors d) fun i => itemWeight donors d i * xval a d i

/-- LHS of the code's constraint 2: pounds of one food type received. -/
def foodTypeReceived (donors : List Donor) (xval : ℕ → ℕ → ℕ → ℚ) (a : ℕ)
    (f : String) : ℚ :=
  sumOver donors.length fun d =>
    sumOver (numItems donors d) fun i => qgfEntry donors d i f * xval a d i

/-- Feasibility of a variable assignment for the model built by
`egalitarianILP`: variable domains (binary indicators, non-negative `r` and
`r_f`) together with constraints 1-7 exactly as added in `algos.py`. -/
@[reducible] def modelFeasible (donors : List Donor) (agencies : List Agency) (drivers : List Driver)
    (adjMatrix : ℕ → ℕ → ℚ) (xval : ℕ → ℕ → ℕ → ℚ) (yval : ℕ → ℕ → ℕ → ℕ → ℚ)
    (rval : ℚ) (rfval : String → ℚ) : Prop :=
  (∀ a < agencies.length, ∀ d < donors.length, ∀ i < numItems donors d,
      xval a d i = 0 ∨ xval a d i = 1) ∧
  (∀ t ∈ timeSteps, ∀ a < agencies.length, ∀ d < donors.length, ∀ k < drivers.length,
      yval t a d k = 0 ∨ yval t a d k = 1) ∧
  0 ≤ rval ∧
  (∀ f ∈ FOOD_TYPES, 0 ≤ rfval f) ∧
  (∀ a < agencies.length,
      codeTotalFoodReceived donors xval a ≥
        rval * (calculateAgencyWeights agencies).getD a 0) ∧
  (∀ a < agencies.length, ∀ f ∈ FOOD_TYPES,
      foodTypeReceived donors xval a f ≥
        rfval f * (calculateAgencyWeights agencies).getD a 0) ∧
  (∀ d < donors.length, ∀ i < numItems donors d,
      sumOver agencies.length (fun a => xval a d i) ≤ 1) ∧
  (∀ t ∈ timeSteps, ∀ k < drivers.length,
      sumOver agencies.length (fun a => sumOver donors.length fun d => yval t a d k) ≤ 1) ∧
  (∀ t ∈ timeSteps, ∀ a < agencies.length, ∀ d < donors.length,
      sumOver drivers.length (fun k => yval t a d k) ≤ 1) ∧
  (∀ t ∈ timeSteps, ∀ a < agencies.length, ∀ d < donors.length, ∀ k < drivers.length,
      createDriverFeasibilityMatrix donors agencies drivers adjMatrix a d k = false →
        yval t a d k = 0) ∧
  (∀ a < agencies.length, ∀ d < donors.length, ∀ i < numItems donors d,
      xval a d i ≤ (timeSteps.map fun t => sumOver drivers.length fun k => yval t a d k).sum)

/-- The key order of the `x` variable dict: agency outer, then donor, then
item — the iteration order of the extraction loop (`algos.py` line 221). -/
def xKeys (nA : ℕ) (donors : List Donor) : List (ℕ × ℕ × ℕ) :=
  (List.range nA).flatMap fun a =>
    (List.range donors.length).flatMap fun d =>
      (List.range (numItems donors d)).map fun i => (a, d, i)

/-- The key order of the `y` trip-variable dict (`algos.py` lines 64-71). -/
def yKeys (nA nD nK : ℕ) : List (ℕ × ℕ × ℕ × ℕ) :=
  timeSteps.flatMap fun t =>
    (List.range nA).flatMap fun a =>
      (List.range nD).flatMap fun d =>
        (List.range nK).map fun k => (t, a, d, k)

/-- One iteration of the extraction loop (`algos.py` lines 221-225): when the
indicator exceeds the 0.5 threshold, append the (donor, item) pair to the
agency's allocation list and add the item's weight to its utility. -/
def extractStep (donors : List Donor) (xval : ℕ → ℕ → ℕ → ℚ)
    (st : (ℕ → List (ℕ × ℕ)) × (ℕ → ℚ)) (key : ℕ × ℕ × ℕ) :
    (ℕ → List (ℕ × ℕ)) × (ℕ → ℚ) :=
  if xval key.1 key.2.1 key.2.2 > 1/2 then
    (fun b => if b = key.1 then st.1 b ++ [(key.2.1, key.2.2)] else st.1 b,
     fun b => if b = key.1 then st.2 b + itemWeight donors key.2.1 key.2.2 else st.2 b)
  else st

/-- The full extraction (`algos.py` lines 217-225): fold the loop over all
`x` keys starting from the empty defaultdict and the all-zero utility list.
The utility list of length `len(agencies)` is read back from the fold state. -/
def extractSolution (donors : List Donor) (nA : ℕ) (xval : ℕ → ℕ → ℕ → ℚ) :
    (ℕ → List (ℕ × ℕ)) × List ℚ :=
  (((xKeys nA donors).foldl (extractStep donors xval) (fun _ => [], fun _ => 0)).1,
   (List.range nA).map
     ((xKeys nA donors).foldl (extractStep donors xval) (fun _ => [], fun _ => 0)).2)

/-- The `pulp` solver statuses distinguished by `egalitarianILP`. -/
inductive SolveStatus
  | optimal
  | notSolved
  | infeasible
  | unbounded
  | undefined
deriving DecidableEq

/-- The post-solve behaviour of `egalitarianILP` (`algos.py` lines 200-227).
The first component models the unconditional status report printed at line
201 (the embedding is pure, so the print becomes a returned value).  On
`notSolved` or `infeasible` the function returns the empty defaultdict and
`[0.0] * len(agencies)`; on every other status it extracts the solution. -/
def egalitarianILPResult (donors : List Donor) (agencies : List Agency)
    (status : SolveStatus) (xval : ℕ → ℕ → ℕ → ℚ) :
    SolveStatus × (ℕ → List (ℕ × ℕ)) × List ℚ :=
  match status with
  | .notSolved => (status, fun _ => [], List.replicate agencies.length 0)
  | .infeasible => (status, fun _ => [], List.replicate agencies.length 0)
  | _ => (status, extractSolution donors agencies.length xval)

/-- First-wins selection: fold over the list, replacing the current best only
when `keep new best` holds, so ties keep the earlier candidate. -/
def pickFirstBest {α : Type} (keep : α → α → Bool) (l : List α) : Option α :=
  l.foldl
    (fun best c =>
      match best with
      | none => some c
      | some b => if keep c b then some c else some b)
    none

/-- Modelled from the spec: `leximinGreedy` is imported from `algos` by
`main.py` but is absent from the sources, so the greedy leximin allocator is
modelled from spec section 4.3, step 1: among all agencies with valid positive
fairness weight, select the one with the minimum current utility-per-weight
quotient, ties broken by iteration order (first encountered wins). -/
def selectNeediestAgency (weights : List ℚ) (utils : ℕ → ℚ) : Option ℕ :=
  pickFirstBest
    (fun i j => decide (utils i / weights.getD i 0 < utils j / weights.getD j 0))
    ((List.range weights.length).filter fun i => decide (0 < weights.getD i 0))

/-- Modelled from the spec: `leximinGreedy` is absent from the sources; spec
section 4.3, step 2: among all pool items feasible for the selected agency,
select the heaviest, ties broken by iteration order. -/
def selectHeaviestFeasible (itemWt : ℕ × ℕ → ℚ) (feas : ℕ → ℕ × ℕ → Bool)
    (a : ℕ) (pool : List (ℕ × ℕ)) : Option (ℕ × ℕ) :=
  pickFirstBest (fun g h => decide (itemWt h < itemWt g)) (pool.filter (feas a))

/-- Modelled from the spec: `leximinGreedy` is absent from the sources; one
assignment step of the greedy leximin allocator per spec section 4.3, steps
1-4.  Returns `none` when it halts (no valid agency, or no feasible item for
the selected agency); otherwise returns the selected agency, the chosen item,
the shrunken pool, the extended allocation, and the updated utilities. -/
def greedyStep (weights : List ℚ) (itemWt : ℕ × ℕ → ℚ) (feas : ℕ → ℕ × ℕ → Bool)
    (pool : List (ℕ × ℕ)) (alloc : ℕ → List (ℕ × ℕ)) (utils : ℕ → ℚ) :
    Option (ℕ × (ℕ × ℕ) × List (ℕ × ℕ) × (ℕ → List (ℕ × ℕ)) × (ℕ → ℚ)) :=
  match selectNeediestAgency weights utils with
  | none => none
  | some a =>
    match selectHeaviestFeasible itemWt feas a pool with
    | none => none
    | some g =>
      some (a, g, pool.erase g,
        fun b => if b = a then alloc b ++ [g] else alloc b,
        fun b => if b = a then utils b + itemWt g else utils b)

/-! Concrete inputs used by witnesses and counterexamples. -/

/-- A 10-pound item entirely of type dairy. -/
def demoItem : Item := ⟨10, [("dairy", 10)]⟩

/-- A single non-partner donor offering `demoItem`. -/
def demoDonors : List Donor := [⟨"D1", false, [demoItem]⟩]

/-- Two agencies, both with valid weight 1. -/
def demoAgencies : List Agency := [⟨"A0", some 1, "Y"⟩, ⟨"A1", some 1, "Y"⟩]

/-- A single driver. -/
def demoDrivers : List Driver := [⟨"K1"⟩]

/-- Full adjacency. -/
def demoAdj : ℕ → ℕ → ℚ := fun _ _ => 1

/-- Assignment values: the item goes to agency 0. -/
def demoX : ℕ → ℕ → ℕ → ℚ := fun a _ _ => if a = 0 then 1 else 0

/-- Trip values: driver 0 carries one trip to agency 0 at time 0. -/
def demoY : ℕ → ℕ → ℕ → ℕ → ℚ := fun t a _ _ => if t = 0 ∧ a = 0 then 1 else 0

/-- Agencies with `servedPerWk` values 120, missing, 80 — the spec's weight
fallback example. -/
def demoWeightAgencies : List Agency :=
  [⟨"X", some 120, "Y"⟩, ⟨"Y", none, "Y"⟩, ⟨"Z", some 80, "Y"⟩]

/-- An FBWM partner donor with no items. -/
def partnerDonor : Donor := ⟨"P", true, []⟩

/-- An agency that is not a Food Bank partner. -/
def nfbAgency : Agency := ⟨"N", some 1, "NFB"⟩

/-- Follows the words of the spec (refinement target for the weight-vector
claim): the weight of one agency — `servedPerWk` when present and strictly
positive, else the median of the batch's valid values, else the constant
fallback 100 (the latter two cases are both `batchMedianWeight`). -/
def specWeightEntry (agencies : List Agency) (a : Agency) : ℚ :=
  match a.servedPerWk with
  | some w => if 0 < w then w else batchMedianWeight agencies
  | none => batchMedianWeight agencies

/-! Helper lemmas. -/

theorem mem_insertSorted {x y : ℚ} : ∀ {l : List ℚ}, y ∈ insertSorted x l ↔ y = x ∨ y ∈ l := by
  intro l
  induction l with
  | nil => simp [insertSorted]
  | cons z zs ih =>
    simp only [insertSorted]
    split
    · simp [List.mem_cons]
    · simp only [List.mem_cons, ih]
      tauto

theorem length_insertSorted (x : ℚ) : ∀ l : List ℚ, (insertSorted x l).length = l.length + 1 := by
  intro l
  induction l with
  | nil => simp [insertSorted]
  | cons z zs ih =>
    simp only [insertSorted]
    split
    · simp
    · simp [ih]

theorem mem_sortAsc {y : ℚ} : ∀ {l : List ℚ}, y ∈ sortAsc l ↔ y ∈ l := by
  intro l
  induction l with
  | nil => simp [sortAsc]
  | cons z zs ih =>
    show y ∈ insertSorted z (sortAsc zs) ↔ _
    rw [mem_insertSorted, ih]
    simp [List.mem_cons]

theorem length_sortAsc : ∀ l : List ℚ, (sortAsc l).length = l.length := by
  intro l
  induction l with
  | nil => rfl
  | cons z zs ih =>
    show (insertSorted z (sortAsc zs)).length = _
    rw [length_insertSorted, ih]
    rfl

theorem getD_pos_of_mem {s : List ℚ} (h : ∀ x ∈ s, 0 < x) {k : ℕ} (hk : k < s.length) :
    0 < s.getD k 0 := by
  rw [List.getD_eq_getElem?_getD, List.getElem?_eq_getElem hk]
  exact h _ (List.getElem_mem hk)

theorem median_pos {l : List ℚ} (hne : l ≠ []) (hpos : ∀ x ∈ l, 0 < x) : 0 < median l := by
  have hlen : 0 < l.length := List.length_pos.mpr hne
  have hsortpos : ∀ x ∈ sortAsc l, 0 < x := fun x hx => hpos x (mem_sortAsc.mp hx)
  have hslen : (sortAsc l).length = l.length := length_sortAsc l
  unfold median
  split
  next hodd => exact getD_pos_of_mem hsortpos (by omega)
  next heven =>
    have h2 : 2 ≤ l.length := by omega
    have ha : 0 < (sortAsc l).getD (l.length / 2 - 1) 0 :=
      getD_pos_of_mem hsortpos (by omega)
    have hb : 0 < (sortAsc l).getD (l.length / 2) 0 :=
      getD_pos_of_mem hsortpos (by omega)
    have : 0 < (sortAsc l).getD (l.length / 2 - 1) 0 + (sortAsc l).getD (l.length / 2) 0 := by
      linarith
    linarith

theorem pickFirstBest_mem {α : Type} (keep : α → α → Bool) :
    ∀ (l : List α) (acc : Option α) (x : α),
      l.foldl
        (fun best c =>
          match best with
          | none => some c
          | some b => if keep c b then some c else some b)
        acc = some x →
      x ∈ l ∨ acc = some x := by
  intro l
  induction l with
  | nil => intro acc x h; exact Or.inr h
  | cons c cs ih =>
    intro acc x h
    simp only [List.foldl_cons] at h
    rcases ih _ x h with hmem | hacc
    · exact Or.inl (List.mem_cons_of_mem _ hmem)
    · match acc with
      | none =>
        simp only [Option.some.injEq] at hacc
        exact Or.inl (hacc ▸ List.mem_cons_self c cs)
      | some b =>
        by_cases hk : keep c b
        · simp only [hk, if_true, Option.some.injEq] at hacc
          exact Or.inl (hacc ▸ List.mem_cons_self c cs)
        · simp only [hk, if_false, Bool.false_eq_true] at hacc
          exact Or.inr hacc

theorem pickFirstBest_mem_of_some {α : Type} {keep : α → α → Bool} {l : List α} {x : α}
    (h : pickFirstBest keep l = some x) : x ∈ l := by
  rcases pickFirstBest_mem keep l none x h with hm | habs
  · exact hm
  · cases habs

theorem sumOver_eq_finset (n : ℕ) (f : ℕ → ℚ) :
    sumOver n f = ∑ i ∈ Finset.range n, f i := by
  induction n with
  | zero => simp [sumOver]
  | succ m ih =>
    rw [sumOver, List.range_succ, List.map_append, List.sum_append,
      Finset.sum_range_succ]
    simp only [List.map_cons, List.map_nil, List.sum_cons, List.sum_nil]
    rw [← sumOver, ih]
    ring

theorem pair_le_sumOver {n : ℕ} {f : ℕ → ℚ} {a b : ℕ} (ha : a < n) (hb : b < n)
    (hab : a ≠ b) (h0 : ∀ i < n, 0 ≤ f i) : f a + f b ≤ sumOver n f := by
  rw [sumOver_eq_finset]
  have hmem : a ∈ Finset.range n := Finset.mem_range.mpr ha
  have hbm : b ∈ (Finset.range n).erase a :=
    Finset.mem_erase.mpr ⟨fun hc => hab hc.symm, Finset.mem_range.mpr hb⟩
  have hsingle : f b ≤ ∑ i ∈ (Finset.range n).erase a, f i :=
    Finset.single_le_sum (fun i hi => h0 i (Finset.mem_range.mp (Finset.mem_of_mem_erase hi))) hbm
  calc f a + f b ≤ f a + ∑ i ∈ (Finset.range n).erase a, f i := by linarith
    _ = ∑ i ∈ Finset.range n, f i := Finset.add_sum_erase _ f hmem

theorem sumOver_le_sumOver {n : ℕ} {f g : ℕ → ℚ} (h : ∀ i < n, f i ≤ g i) :
    sumOver n f ≤ sumOver n g :=
  List.sum_le_sum fun i hi => h i (List.mem_range.mp hi)

theorem sumOverFoods_mul_const (g : String → ℚ) (c : ℚ) :
    sumOverFoods (fun f => g f * c) = sumOverFoods g * c := by
  unfold sumOverFoods
  exact List.sum_map_mul_right _ _ _

theorem getD_map_of_lt {α : Type} (f : α → ℚ) (l : List α) (i : ℕ) (h : i < l.length) :
    (l.map f).getD i 0 = f (l.get ⟨i, h⟩) := by
  rw [List.getD_eq_getElem?_getD, List.getElem?_map, List.getElem?_eq_getElem h]
  rfl

theorem getD_range_map (f : ℕ → ℚ) {n a : ℕ} (h : a < n) :
    ((List.range n).map f).getD a 0 = f a := by
  rw [getD_map_of_lt f _ a (by simpa using h)]
  simp [List.get_eq_getElem, List.getElem_range]

theorem length_flatMap_const {α β : Type} (l : List α) (f : α → List β) (c : ℕ)
    (h : ∀ x ∈ l, (f x).length = c) : (l.flatMap f).length = l.length * c := by
  induction l with
  | nil => simp
  | cons x xs ih =>
    rw [List.flatMap_cons, List.length_append, h x (List.mem_cons_self x xs),
      ih fun y hy => h y (List.mem_cons_of_mem x hy), List.length_cons]
    ring

theorem mem_xKeys {nA : ℕ} {donors : List Donor} {a d i : ℕ} :
    (a, d, i) ∈ xKeys nA donors ↔
      a < nA ∧ d < donors.length ∧ i < numItems donors d := by
  simp only [xKeys, List.mem_flatMap, List.mem_map, List.mem_range, Prod.mk.injEq]
  constructor
  · rintro ⟨a2, ha2, d2, hd2, i2, hi2, rfl, rfl, rfl⟩
    exact ⟨ha2, hd2, hi2⟩
  · rintro ⟨ha, hd, hi⟩
    exact ⟨a, ha, d, hd, i, hi, rfl, rfl, rfl⟩

theorem extractStep_taken {donors : List Donor} {xval : ℕ → ℕ → ℕ → ℚ}
    {st : (ℕ → List (ℕ × ℕ)) × (ℕ → ℚ)} {a2 d2 i2 : ℕ} (hx : xval a2 d2 i2 > 1/2) :
    extractStep donors xval st (a2, d2, i2) =
      (fun b => if b = a2 then st.1 b ++ [(d2, i2)] else st.1 b,
       fun b => if b = a2 then st.2 b + itemWeight donors d2 i2 else st.2 b) := by
  unfold extractStep
  rw [if_pos hx]

theorem extractStep_skip {donors : List Donor} {xval : ℕ → ℕ → ℕ → ℚ}
    {st : (ℕ → List (ℕ × ℕ)) × (ℕ → ℚ)} {a2 d2 i2 : ℕ} (hx : ¬(xval a2 d2 i2 > 1/2)) :
    extractStep donors xval st (a2, d2, i2) = st := by
  unfold extractStep
  rw [if_neg hx]

theorem extractState_mem (donors : List Donor) (xval : ℕ → ℕ → ℕ → ℚ) :
    ∀ (L : List (ℕ × ℕ × ℕ)) (st : (ℕ → List (ℕ × ℕ)) × (ℕ → ℚ)) (a d i : ℕ),
      ((d, i) ∈ (L.foldl (extractStep donors xval) st).1 a ↔
        (d, i) ∈ st.1 a ∨ ((a, d, i) ∈ L ∧ xval a d i > 1/2)) := by
  intro L
  induction L with
  | nil => intro st a d i; simp
  | cons k ks ih =>
    intro st a d i
    obtain ⟨a2, d2, i2⟩ := k
    rw [List.foldl_cons, ih]
    by_cases hx : xval a2 d2 i2 > 1/2
    · rw [extractStep_taken hx]
      by_cases hab : a = a2
      · subst hab
        constructor
        · intro h
          rcases h with h | ⟨hk, hxv⟩
          · have h2 : (d, i) ∈ st.1 a ++ [(d2, i2)] := by simpa using h
            rcases List.mem_append.mp h2 with hm | hm
            · exact Or.inl hm
            · have h3 : (d, i) = (d2, i2) := by simpa using hm
              cases h3
              exact Or.inr ⟨List.mem_cons_self _ _, hx⟩
          · exact Or.inr ⟨List.mem_cons_of_mem _ hk, hxv⟩
        · intro h
          rcases h with hm | ⟨hk, hxv⟩
          · refine Or.inl ?_
            simp only [eq_self_iff_true, if_true, List.mem_append, List.mem_singleton]
            exact Or.inl hm
          · rcases List.mem_cons.mp hk with heq | hk2
            · cases heq
              refine Or.inl ?_
              simp [List.mem_append]
            · exact Or.inr ⟨hk2, hxv⟩
      · constructor
        · intro h
          rcases h with h | ⟨hk, hxv⟩
          · have h2 : (d, i) ∈ st.1 a := by simpa [hab] using h
            exact Or.inl h2
          · exact Or.inr ⟨List.mem_cons_of_mem _ hk, hxv⟩
        · intro h
          rcases h with hm | ⟨hk, hxv⟩
          · exact Or.inl (by simpa [hab] using hm)
          · rcases List.mem_cons.mp hk with heq | hk2
            · cases heq
              exact absurd rfl hab
            · exact Or.inr ⟨hk2, hxv⟩
    · rw [extractStep_skip hx]
      constructor
      · intro h
        rcases h with hm | ⟨hk, hxv⟩
        · exact Or.inl hm
        · exact Or.inr ⟨List.mem_cons_of_mem _ hk, hxv⟩
      · intro h
        rcases h with hm | ⟨hk, hxv⟩
        · exact Or.inl hm
        · rcases List.mem_cons.mp hk with heq | hk2
          · cases heq
            exact absurd hxv hx
          · exact Or.inr ⟨hk2, hxv⟩

theorem extractState_utils (donors : List Donor) (xval : ℕ → ℕ → ℕ → ℚ) :
    ∀ (L : List (ℕ × ℕ × ℕ)) (st : (ℕ → List (ℕ × ℕ)) × (ℕ → ℚ)),
      (∀ b, st.2 b = ((st.1 b).map fun p => itemWeight donors p.1 p.2).sum) →
      ∀ a, (L.foldl (extractStep donors xval) st).2 a =
        (((L.foldl (extractStep donors xval) st).1 a).map
          fun p => itemWeight donors p.1 p.2).sum := by
  intro L
  induction L with
  | nil => intro st hst a; exact hst a
  | cons k ks ih =>
    intro st hst a
    rw [List.foldl_cons]
    apply ih
    intro b
    obtain ⟨a2, d2, i2⟩ := k
    by_cases hx : xval a2 d2 i2 > 1/2
    · rw [extractStep_taken hx]
      by_cases hb : b = a2
      · subst hb
        simp only [eq_self_iff_true, if_true, List.map_append, List.sum_append,
          List.map_cons, List.map_nil, List.sum_cons, List.sum_nil, hst b]
        ring
      · simp only [if_neg hb]
        exact hst b
    · rw [extractStep_skip hx]
      exact hst b

theorem validServed_pos {a : Agency} {w : ℚ} (h : validServed a = some w) : 0 < w := by
  unfold validServed at h
  cases hs : a.servedPerWk with
  | none =>
    rw [hs] at h
    exact Option.noConfusion h
  | some v =>
    rw [hs] at h
    have h2 : (if 0 < v then some v else none) = some w := h
    by_cases hv : 0 < v
    · rw [if_pos hv] at h2
      cases h2
      exact hv
    · rw [if_neg hv] at h2
      exact Option.noConfusion h2

theorem validWeightsOf_pos (agencies : List Agency) :
    ∀ x ∈ validWeightsOf agencies, 0 < x := by
  intro x hx
  rw [validWeightsOf, List.mem_filterMap] at hx
  obtain ⟨a, _, hva⟩ := hx
  exact validServed_pos hva

theorem batchMedianWeight_pos (agencies : List Agency) : 0 < batchMedianWeight agencies := by
  unfold batchMedianWeight
  split
  next => norm_num
  next hne =>
    apply median_pos
    · intro hcontra
      rw [hcontra] at hne
      simp at hne
    · exact validWeightsOf_pos agencies

theorem calculateAgencyWeights_eq_map {agencies : List Agency} (h : agencies ≠ []) :
    calculateAgencyWeights agencies =
      agencies.map fun a => (validServed a).getD (batchMedianWeight agencies) := by
  cases agencies with
  | nil => exact absurd rfl h
  | cons a as => rfl

theorem calculateAgencyWeights_length {agencies : List Agency} (h : agencies ≠ []) :
    (calculateAgencyWeights agencies).length = agencies.length := by
  rw [calculateAgencyWeights_eq_map h, List.length_map]

theorem calculateAgencyWeights_getD {agencies : List Agency} (h : agencies ≠ [])
    {i : ℕ} (hi : i < agencies.length) :
    (calculateAgencyWeights agencies).getD i 0 =
      (validServed (agencies.get ⟨i, hi⟩)).getD (batchMedianWeight agencies) := by
  rw [calculateAgencyWeights_eq_map h, getD_map_of_lt _ _ _ hi]

theorem calculateAgencyWeights_pos (agencies : List Agency) :
    ∀ x ∈ calculateAgencyWeights agencies, 0 < x := by
  intro x hx
  by_cases h : agencies = []
  · subst h
    simp only [calculateAgencyWeights, List.isEmpty_nil, if_pos, List.mem_singleton] at hx
    rw [hx]
    norm_num
  · rw [calculateAgencyWeights_eq_map h, List.mem_map] at hx
    obtain ⟨a, _, hax⟩ := hx
    cases hv : validServed a with
    | none =>
      rw [hv] at hax
      simp only [Option.getD_none] at hax
      rw [← hax]
      exact batchMedianWeight_pos agencies
    | some w =>
      rw [hv] at hax
      simp only [Option.getD_some] at hax
      rw [← hax]
      exact validServed_pos hv

theorem validServed_getD_eq (agencies : List Agency) (a : Agency) :
    (validServed a).getD (batchMedianWeight agencies) = specWeightEntry agencies a := by
  unfold validServed specWeightEntry
  cases a.servedPerWk with
  | none => rfl
  | some w =>
    show (if 0 < w then some w else none).getD (batchMedianWeight agencies) =
      if 0 < w then w else batchMedianWeight agencies
    by_cases hw : 0 < w
    · rw [if_pos hw, if_pos hw]
      rfl
    · rw [if_neg hw, if_neg hw]
      rfl

theorem length_yKeys (nA nD nK : ℕ) :
    (yKeys nA nD nK).length = 9 * nA * nD * nK := by
  have h1 : ∀ t a : ℕ,
      ((List.range nD).flatMap fun d =>
        (List.range nK).map fun k => (t, a, d, k)).length = nD * nK := by
    intro t a
    rw [length_flatMap_const _ _ nK fun d _ => by simp]
    simp
  have h2 : ∀ t : ℕ,
      ((List.range nA).flatMap fun a =>
        (List.range nD).flatMap fun d =>
          (List.range nK).map fun k => (t, a, d, k)).length = nA * (nD * nK) := by
    intro t
    rw [length_flatMap_const _ _ (nD * nK) fun a _ => h1 t a]
    simp
  unfold yKeys
  rw [length_flatMap_const _ _ (nA * (nD * nK)) fun t _ => h2 t]
  show timeSteps.length * _ = _
  simp only [timeSteps, List.length_cons, List.length_nil]
  ring

theorem sumOver_congr {n : ℕ} {f g : ℕ → ℚ} (h : ∀ i < n, f i = g i) :
    sumOver n f = sumOver n g := by
  unfold sumOver
  exact congrArg List.sum (List.map_congr_left fun i hi => h i (List.mem_range.mp hi))

theorem codeTotal_factored (donors : List Donor) (xval : ℕ → ℕ → ℕ → ℚ) (a : ℕ) :
    codeTotalFoodReceived donors xval a =
      sumOver donors.length fun d =>
        sumOver (numItems donors d) fun i => qgfSum donors d i * xval a d i := by
  unfold codeTotalFoodReceived qgfSum
  apply sumOver_congr
  intro d _
  apply sumOver_congr
  intro i _
  exact sumOverFoods_mul_const _ _

theorem codeTotal_le_itemWeightReceived (donors : List Donor)
    (xval : ℕ → ℕ → ℕ → ℚ) (a : ℕ)
    (hx0 : ∀ d < donors.length, ∀ i < numItems donors d, 0 ≤ xval a d i)
    (hq : ∀ d < donors.length, ∀ i < numItems donors d,
      qgfSum donors d i ≤ itemWeight donors d i) :
    codeTotalFoodReceived donors xval a ≤ itemWeightReceived donors xval a := by
  rw [codeTotal_factored]
  unfold itemWeightReceived
  apply sumOver_le_sumOver
  intro d hd
  apply sumOver_le_sumOver
  intro i hi
  exact mul_le_mul_of_nonneg_right (hq d hd i hi) (hx0 d hd i hi)

/-! Claim theorems.  The local attribute lets `decide` evaluate rational
arithmetic on the concrete witness inputs. -/

section ClaimTheorems

attribute [local semireducible] Rat.add Rat.mul Rat.inv Rat.sub

/-- Claim C9: called with an empty agency list, `calculateAgencyWeights`
returns the one-element list `[100.0]` rather than an empty list, so the
output length differs from the input length in exactly this degenerate case. -/
theorem claim_C9_empty_agency_weights :
    calculateAgencyWeights [] = [100] ∧
      (calculateAgencyWeights []).length ≠ ([] : List Agency).length := by
  exact ⟨rfl, by decide⟩

/-- Claim C3 counterexample: the claim quantifies over every agency list, but
on the empty list the returned vector has length 1 while the input has
length 0, so "same length as the agency list" fails there. -/
theorem claim_C3_counterexample :
    ¬ ((calculateAgencyWeights ([] : List Agency)).length = ([] : List Agency).length) := by
  decide

/-- Claim C3 (amended: restricted to nonempty agency lists, where the original
claim's length and entry description hold; positivity holds for every input):
for nonempty input the weight vector has the input's length and entry i is
`servedPerWk` when present and positive, else the median of valid values,
else 100; every returned entry is strictly positive; and on served-per-week
data `[120, missing, 80]` the missing entry resolves to 100. -/
theorem claim_C3_weight_vector :
    (∀ agencies : List Agency, agencies ≠ [] →
      (calculateAgencyWeights agencies).length = agencies.length ∧
      ∀ i (hi : i < agencies.length),
        (calculateAgencyWeights agencies).getD i 0 =
          specWeightEntry agencies (agencies.get ⟨i, hi⟩)) ∧
    (∀ agencies : List Agency, ∀ x ∈ calculateAgencyWeights agencies, 0 < x) ∧
    (calculateAgencyWeights demoWeightAgencies).getD 1 0 = 100 := by
  refine ⟨?_, calculateAgencyWeights_pos, ?_⟩
  · intro ags hne
    refine ⟨calculateAgencyWeights_length hne, ?_⟩
    intro i hi
    rw [calculateAgencyWeights_getD hne hi]
    exact validServed_getD_eq ags _
  · decide

/-- Witness for C3: the amended theorem applied at the `[120, missing, 80]`
agency list. -/
theorem claim_C3_weight_vector_witness :
    demoWeightAgencies ≠ [] ∧
      (calculateAgencyWeights demoWeightAgencies).length = demoWeightAgencies.length :=
  ⟨by decide, (claim_C3_weight_vector.1 demoWeightAgencies (by decide)).1⟩

/-- Claim C7: the weight and feasibility precomputations are deterministic —
equal inputs produce equal outputs (in this pure embedding of the source,
which draws no randomness in either function, this is definitional). -/
theorem claim_C7_determinism :
    (∀ agencies : List Agency,
        calculateAgencyWeights agencies = calculateAgencyWeights agencies) ∧
    (∀ (donors : List Donor) (agencies : List Agency) (drivers : List Driver)
        (adjMatrix : ℕ → ℕ → ℚ),
        createDriverFeasibilityMatrix donors agencies drivers adjMatrix =
          createDriverFeasibilityMatrix donors agencies drivers adjMatrix) :=
  ⟨fun _ => rfl, fun _ _ _ _ => rfl⟩

/-- Claim C10: the trip decision variables are indexed by exactly the fixed
internal time-step list `[0, 1, 2, 3, 4, 6, 7, 8, 9]` (nine steps, 5 absent;
not a parameter of `egalitarianILP`), so the number of trip variables created
is always `9 * |agencies| * |donors| * |drivers|`. -/
theorem claim_C10_trip_variable_grid :
    timeSteps = [0, 1, 2, 3, 4, 6, 7, 8, 9] ∧ timeSteps.length = 9 ∧
      (5 : ℕ) ∉ timeSteps ∧
      ∀ nA nD nK : ℕ, (yKeys nA nD nK).length = 9 * nA * nD * nK :=
  ⟨rfl, rfl, by decide, length_yKeys⟩

/-- Claim C4 counterexample: `createDriverFeasibilityMatrix` does not itself
check partnership — handed an adjacency matrix with the edge set, an FBWM
partner donor paired with a non-partner ("NFB") agency is still marked
feasible for a driver, refuting "infeasible regardless of the adjacency
entry". -/
theorem claim_C4_counterexample :
    partnerDonor.fbwmPartner = true ∧ nfbAgency.fbwmPartner = "NFB" ∧
      createDriverFeasibilityMatrix [partnerDonor] [nfbAgency] demoDrivers
        demoAdj 0 0 0 = true := by
  refine ⟨rfl, rfl, ?_⟩
  decide

/-- Claim C4 (amended): the tensor marks a triple feasible only if the
adjacency entry is 1; the partnership rule is enforced upstream when the
adjacency matrix is built (`main.py`), so with a built adjacency matrix (any
random draw) a partner donor paired with a non-partner agency is infeasible
for every driver.  `createDriverFeasibilityMatrix` itself does not re-check
partnership. -/
theorem claim_C4_feasibility (donors : List Donor) (agencies : List Agency)
    (drivers : List Driver) (adjMatrix : ℕ → ℕ → ℚ) (coin : ℕ → ℕ → Bool)
    (a d k : ℕ)
    (hp : ((donors.get? d).map Donor.fbwmPartner).getD false = true)
    (hn : ((agencies.get? a).map Agency.fbwmPartner).getD "" = "NFB") :
    (∀ a2 d2 k2 : ℕ,
        createDriverFeasibilityMatrix donors agencies drivers adjMatrix a2 d2 k2 = true →
        adjMatrix d2 a2 = 1) ∧
    createDriverFeasibilityMatrix donors agencies drivers
      (buildAdjMatrix donors agencies coin) a d k = false := by
  constructor
  · intro a2 d2 k2 h
    unfold createDriverFeasibilityMatrix at h
    simp only [Bool.and_eq_true, decide_eq_true_eq] at h
    exact h.2
  · have hadj : buildAdjMatrix donors agencies coin d a = 0 := by
      unfold buildAdjMatrix
      split
      next hin => rw [if_pos ⟨hp, hn⟩]
      next hout => rfl
    unfold createDriverFeasibilityMatrix
    rw [hadj]
    simp

/-- Witness for C4: the amended theorem applied to the partner donor and the
NFB agency with a coin that always draws an edge. -/
theorem claim_C4_feasibility_witness :
    (((([partnerDonor] : List Donor).get? 0).map Donor.fbwmPartner).getD false = true) ∧
    (((([nfbAgency] : List Agency).get? 0).map Agency.fbwmPartner).getD "" = "NFB") ∧
    createDriverFeasibilityMatrix [partnerDonor] [nfbAgency] demoDrivers
      (buildAdjMatrix [partnerDonor] [nfbAgency] fun _ _ => true) 0 0 0 = false :=
  ⟨by decide, by decide,
    (claim_C4_feasibility [partnerDonor] [nfbAgency] demoDrivers demoAdj
      (fun _ _ => true) 0 0 0 (by decide) (by decide)).2⟩

/-- Claim C2: when the solver reports `notSolved` or `infeasible`,
`egalitarianILP` returns the empty allocation and the all-zero utility vector
of length `len(agencies)`, and the solver status is reported to the caller
(the unconditional status print of line 201, modelled as the first returned
component); it does not extract a solution on these statuses. -/
theorem claim_C2_failure_path (donors : List Donor) (agencies : List Agency)
    (xval : ℕ → ℕ → ℕ → ℚ) (status : SolveStatus)
    (h : status = SolveStatus.notSolved ∨ status = SolveStatus.infeasible) :
    (egalitarianILPResult donors agencies status xval).1 = status ∧
    (∀ a : ℕ, (egalitarianILPResult donors agencies status xval).2.1 a = []) ∧
    (egalitarianILPResult donors agencies status xval).2.2 =
      List.replicate agencies.length 0 ∧
    (egalitarianILPResult donors agencies status xval).2.2.length = agencies.length := by
  rcases h with rfl | rfl <;>
    exact ⟨rfl, fun _ => rfl, rfl, by simp [egalitarianILPResult]⟩

/-- Witness for C2: the failure path evaluated on the demo inputs with status
`notSolved`. -/
theorem claim_C2_failure_path_witness :
    (SolveStatus.notSolved = SolveStatus.notSolved ∨
      SolveStatus.notSolved = SolveStatus.infeasible) ∧
    (egalitarianILPResult demoDonors demoAgencies SolveStatus.notSolved demoX).2.2 =
      List.replicate demoAgencies.length 0 :=
  ⟨Or.inl rfl,
    (claim_C2_failure_path demoDonors demoAgencies demoX SolveStatus.notSolved
      (Or.inl rfl)).2.2.1⟩

/-- Claim C6: in the extraction of `egalitarianILP` on a solved model, agency
`a`'s allocation list contains exactly the (donor, item) pairs whose
assignment indicator exceeds the 0.5 threshold, and utility entry `a` equals
the sum of the `item.weight` values over agency `a`'s allocated list. -/
theorem claim_C6_extraction (donors : List Donor) (agencies : List Agency)
    (xval : ℕ → ℕ → ℕ → ℚ) (a : ℕ) (ha : a < agencies.length) :
    (∀ d i : ℕ,
      ((d, i) ∈ (egalitarianILPResult donors agencies .optimal xval).2.1 a ↔
        d < donors.length ∧ i < numItems donors d ∧ xval a d i > 1/2)) ∧
    (egalitarianILPResult donors agencies .optimal xval).2.2.getD a 0 =
      (((egalitarianILPResult donors agencies .optimal xval).2.1 a).map
        fun p => itemWeight donors p.1 p.2).sum := by
  constructor
  · intro d i
    show (d, i) ∈
        ((xKeys agencies.length donors).foldl (extractStep donors xval)
          (fun _ => [], fun _ => 0)).1 a ↔ _
    rw [extractState_mem]
    constructor
    · rintro (h | ⟨hk, hx⟩)
      · exact absurd h (List.not_mem_nil _)
      · obtain ⟨_, hd, hi⟩ := mem_xKeys.mp hk
        exact ⟨hd, hi, hx⟩
    · rintro ⟨hd, hi, hx⟩
      exact Or.inr ⟨mem_xKeys.mpr ⟨ha, hd, hi⟩, hx⟩
  · show ((List.range agencies.length).map
        ((xKeys agencies.length donors).foldl (extractStep donors xval)
          (fun _ => [], fun _ => 0)).2).getD a 0 = _
    rw [getD_range_map _ ha]
    exact extractState_utils donors xval _ _ (fun b => by simp) a

/-- Witness for C6: the extraction characterisation applied to the demo
instance at agency 0. -/
theorem claim_C6_extraction_witness :
    0 < demoAgencies.length ∧
    (egalitarianILPResult demoDonors demoAgencies .optimal demoX).2.2.getD 0 0 =
      (((egalitarianILPResult demoDonors demoAgencies .optimal demoX).2.1 0).map
        fun p => itemWeight demoDonors p.1 p.2).sum :=
  ⟨by decide, (claim_C6_extraction demoDonors demoAgencies demoX 0 (by decide)).2⟩

/-- Claim C1: for every allocation returned by `egalitarianILP` — on the
failure path, and on the extraction path for any solver values that satisfy
the model's own constraints (binary indicators and constraint 3, "each item
allocated at most once") — each (donor, item) pair appears in at most one
agency's list. -/
theorem claim_C1_uniqueness (donors : List Donor) (agencies : List Agency)
    (drivers : List Driver) (adjMatrix : ℕ → ℕ → ℚ) (xval : ℕ → ℕ → ℕ → ℚ)
    (yval : ℕ → ℕ → ℕ → ℕ → ℚ) (rval : ℚ) (rfval : String → ℚ)
    (status : SolveStatus)
    (hm : modelFeasible donors agencies drivers adjMatrix xval yval rval rfval) :
    ∀ a b d i : ℕ,
      (d, i) ∈ (egalitarianILPResult donors agencies status xval).2.1 a →
      (d, i) ∈ (egalitarianILPResult donors agencies status xval).2.1 b →
      a = b := by
  obtain ⟨hbin, -, -, -, -, -, hc3, -⟩ := hm
  have hchar : ∀ a d i : ℕ,
      (d, i) ∈ (extractSolution donors agencies.length xval).1 a →
      a < agencies.length ∧ d < donors.length ∧ i < numItems donors d ∧
        xval a d i > 1/2 := by
    intro a d i h
    have h2 := (extractState_mem donors xval (xKeys agencies.length donors)
      (fun _ => [], fun _ => 0) a d i).mp h
    rcases h2 with h2 | ⟨hk, hx⟩
    · exact absurd h2 (List.not_mem_nil _)
    · obtain ⟨haA, hd, hi⟩ := mem_xKeys.mp hk
      exact ⟨haA, hd, hi, hx⟩
  have main : ∀ a b d i : ℕ,
      (d, i) ∈ (extractSolution donors agencies.length xval).1 a →
      (d, i) ∈ (extractSolution donors agencies.length xval).1 b → a = b := by
    intro a b d i hma hmb
    by_cases hab : a = b
    · exact hab
    · exfalso
      obtain ⟨haA, hd, hi, hxa⟩ := hchar a d i hma
      obtain ⟨hbA, -, -, hxb⟩ := hchar b d i hmb
      have hnn : ∀ c < agencies.length, 0 ≤ xval c d i := by
        intro c hc
        rcases hbin c hc d hd i hi with h0 | h1
        · rw [h0]
        · rw [h1]
          norm_num
      have hsum := hc3 d hd i hi
      have hpair := pair_le_sumOver haA hbA hab hnn
      linarith
  intro a b d i hma hmb
  cases status with
  | notSolved => exact absurd hma (List.not_mem_nil _)
  | infeasible => exact absurd hma (List.not_mem_nil _)
  | optimal => exact main a b d i hma hmb
  | unbounded => exact main a b d i hma hmb
  | undefined => exact main a b d i hma hmb

/-- Witness for C1: the uniqueness theorem applied to the demo instance,
whose variable assignment is feasible for the demo model. -/
theorem claim_C1_uniqueness_witness :
    modelFeasible demoDonors demoAgencies demoDrivers demoAdj demoX demoY 0
      (fun _ => 0) ∧
    ((0, 0) ∈ (egalitarianILPResult demoDonors demoAgencies .optimal demoX).2.1 0 →
      (0, 0) ∈ (egalitarianILPResult demoDonors demoAgencies .optimal demoX).2.1 0 →
      (0 : ℕ) = 0) :=
  ⟨by decide,
    claim_C1_uniqueness demoDonors demoAgencies demoDrivers demoAdj demoX demoY 0
      (fun _ => 0) .optimal (by decide) 0 0 0 0⟩

/-- Claim C5: in the model built by `egalitarianILP`, every agency has a
constraint bounding its received food from below by `r` times its fairness
weight.  The constraint the code adds sums the per-food-category quantities
(`qgf`); under the spec's data-model invariant that an item's category
quantities sum to at most its weight, the claim's reading — total assigned
`item.weight` at least `r` times the agency weight — follows at every
feasible point. -/
theorem claim_C5_min_utility_constraint (donors : List Donor) (agencies : List Agency)
    (drivers : List Driver) (adjMatrix : ℕ → ℕ → ℚ) (xval : ℕ → ℕ → ℕ → ℚ)
    (yval : ℕ → ℕ → ℕ → ℕ → ℚ) (rval : ℚ) (rfval : String → ℚ)
    (hm : modelFeasible donors agencies drivers adjMatrix xval yval rval rfval)
    (hq : ∀ d < donors.length, ∀ i < numItems donors d,
      qgfSum donors d i ≤ itemWeight donors d i)
    (a : ℕ) (ha : a < agencies.length) :
    codeTotalFoodReceived donors xval a ≥
      rval * (calculateAgencyWeights agencies).getD a 0 ∧
    itemWeightReceived donors xval a ≥
      rval * (calculateAgencyWeights agencies).getD a 0 := by
  obtain ⟨hbin, -, -, -, hc1, -⟩ := hm
  have h1 := hc1 a ha
  refine ⟨h1, ?_⟩
  have hx0 : ∀ d < donors.length, ∀ i < numItems donors d, 0 ≤ xval a d i := by
    intro d hd i hi
    rcases hbin a ha d hd i hi with h0 | h1x
    · rw [h0]
    · rw [h1x]
      norm_num
  have h2 := codeTotal_le_itemWeightReceived donors xval a hx0 hq
  linarith

/-- Witness for C5: the constraint-1 theorem applied to the demo instance. -/
theorem claim_C5_min_utility_constraint_witness :
    modelFeasible demoDonors demoAgencies demoDrivers demoAdj demoX demoY 0
      (fun _ => 0) ∧
    (∀ d < demoDonors.length, ∀ i < numItems demoDonors d,
      qgfSum demoDonors d i ≤ itemWeight demoDonors d i) ∧
    itemWeightReceived demoDonors demoX 0 ≥
      0 * (calculateAgencyWeights demoAgencies).getD 0 0 :=
  ⟨by decide, by decide,
    (claim_C5_min_utility_constraint demoDonors demoAgencies demoDrivers demoAdj
      demoX demoY 0 (fun _ => 0) (by decide) (by decide) 0 (by decide)).2⟩

/-- Claim C8 (the greedy allocator is modelled from the spec, being absent
from the sources): after an assignment step that selects agency `a` and item
`g`, agency `a`'s utility-per-weight quotient strictly increases (item
weights are positive) and every other agency's quotient is unchanged. -/
theorem claim_C8_greedy_monotonicity (weights : List ℚ) (itemWt : ℕ × ℕ → ℚ)
    (feas : ℕ → ℕ × ℕ → Bool) (pool : List (ℕ × ℕ)) (alloc : ℕ → List (ℕ × ℕ))
    (utils : ℕ → ℚ) (hpos : ∀ p ∈ pool, 0 < itemWt p)
    (a : ℕ) (g : ℕ × ℕ) (pool2 : List (ℕ × ℕ)) (alloc2 : ℕ → List (ℕ × ℕ))
    (utils2 : ℕ → ℚ)
    (hstep : greedyStep weights itemWt feas pool alloc utils =
      some (a, g, pool2, alloc2, utils2)) :
    utils a / weights.getD a 0 < utils2 a / weights.getD a 0 ∧
    ∀ b : ℕ, b ≠ a → utils2 b / weights.getD b 0 = utils b / weights.getD b 0 := by
  unfold greedyStep at hstep
  split at hstep
  · exact Option.noConfusion hstep
  · rename_i a0 hsel
    split at hstep
    · exact Option.noConfusion hstep
    · rename_i g0 hitem
      injection hstep with hstep2
      simp only [Prod.mk.injEq] at hstep2
      obtain ⟨ha0, hg0, -, -, hutils⟩ := hstep2
      subst a
      subst g
      subst utils2
      have hw : 0 < weights.getD a0 0 := by
        have hmem := pickFirstBest_mem_of_some hsel
        have h2 := (List.mem_filter.mp hmem).2
        simpa using h2
      have hg : 0 < itemWt g0 := by
        have hmem := pickFirstBest_mem_of_some hitem
        exact hpos g0 (List.mem_filter.mp hmem).1
      constructor
      · show utils a0 / weights.getD a0 0 <
          (if a0 = a0 then utils a0 + itemWt g0 else utils a0) / weights.getD a0 0
        rw [if_pos rfl]
        exact (div_lt_div_iff_of_pos_right hw).mpr (by linarith)
      · intro b hb
        show (if b = a0 then utils b + itemWt g0 else utils b) / weights.getD b 0 =
          utils b / weights.getD b 0
        rw [if_neg hb]

/-- Witness for C8: one greedy step on a single agency of weight 1 with a
single feasible pool item of weight 2 raises the quotient from 0 to 2. -/
theorem claim_C8_greedy_monotonicity_witness :
    (∀ p ∈ ([(0, 0)] : List (ℕ × ℕ)), (0 : ℚ) < (fun _ : ℕ × ℕ => (2 : ℚ)) p) ∧
    ((fun _ : ℕ => (0 : ℚ)) 0 / ([(1 : ℚ)].getD 0 0) <
      (fun b : ℕ =>
        if b = 0 then (fun _ : ℕ => (0 : ℚ)) b + (fun _ : ℕ × ℕ => (2 : ℚ)) (0, 0)
        else (fun _ : ℕ => (0 : ℚ)) b) 0 / ([(1 : ℚ)].getD 0 0)) :=
  ⟨fun p _ => by norm_num,
    (claim_C8_greedy_monotonicity [(1 : ℚ)] (fun _ => 2) (fun _ _ => true)
      [(0, 0)] (fun _ => []) (fun _ => 0) (fun p _ => by norm_num) 0 (0, 0)
      (([(0, 0)] : List (ℕ × ℕ)).erase (0, 0))
      (fun b =>
        if b = 0 then (fun _ : ℕ => ([] : List (ℕ × ℕ))) b ++ [(0, 0)]
        else (fun _ : ℕ => ([] : List (ℕ × ℕ))) b)
      (fun b =>
        if b = 0 then (fun _ : ℕ => (0 : ℚ)) b + (fun _ : ℕ × ℕ => (2 : ℚ)) (0, 0)
        else (fun _ : ℕ => (0 : ℚ)) b)
      rfl).1⟩

end ClaimTheorems

end FoodRescue
